import Mathlib

/-!
Shallow embedding of the Kohonen self-organizing map program
(`kohonen.py`): the `Neuron` and `SOM` classes, the quality metrics
(`quantification`, `distorsion_locale_moyenne`, `compute_local_roughness`,
`carte_de_chaleur_distorsion`) and the training loop, together with
theorems settling the specification claims.

Real numbers stand for Python floats, lists for 1-D numpy arrays, lists
of lists for 2-D arrays.  Randomness (initial weight draws, sample
selection) is injected as explicit function arguments.  Python exceptions
are modelled with `Except`.
-/

/-- Runtime error kinds of the embedded program.  `valueError` models numpy
shape errors, `zeroDivisionError` models Python division by zero;
`emptyDataset` is the error kind named by the specification (the code never
raises it). -/
inductive PyErr where
  | valueError
  | zeroDivisionError
  | emptyDataset
  deriving DecidableEq

/-- Elementwise binary operation on two 1-D numpy arrays with numpy
broadcasting: defined when the lengths agree or either length is 1;
otherwise a `ValueError`. -/
def npBroadcast (f : ℝ → ℝ → ℝ) (a b : List ℝ) : Except PyErr (List ℝ) :=
  if a.length = b.length then .ok (List.zipWith f a b)
  else if a.length = 1 then .ok (b.map (f a.headI))
  else if b.length = 1 then .ok (a.map (fun t => f t b.headI))
  else .error .valueError

/-- Euclidean norm of a 1-D array, `numpy.linalg.norm`. -/
noncomputable def npNorm (v : List ℝ) : ℝ :=
  Real.sqrt ((v.map (fun t => t ^ 2)).sum)

/-- Elementwise difference of two same-length rows of a rectangular array
(no broadcasting can occur there). -/
def vsub (a b : List ℝ) : List ℝ := List.zipWith (fun s t => s - t) a b

/-- Model of the `Neuron` class: weight vector, grid position `(posx, posy)`
and last output `y`. -/
structure Neuron where
  weights : List ℝ
  posx : ℕ
  posy : ℕ
  y : ℝ

/-- Model of `Neuron.compute`: store in `y` the Euclidean distance between
the weight vector and the (flattened) input.  The subtraction
`self.weights - x.flatten()` follows numpy broadcasting; there is no
explicit dimension check in the code. -/
noncomputable def Neuron.compute (n : Neuron) (x : List ℝ) : Except PyErr Neuron :=
  (npBroadcast (fun a b => a - b) n.weights x).map fun d => { n with y := npNorm d }

/-- Model of `Neuron.learn`: the Kohonen update rule.  The float division
computing the kernel raises `ZeroDivisionError` when `2*sigma*sigma = 0`;
the subtraction `x.flatten() - self.weights` and the addition follow numpy
broadcasting, and the final in-place slice assignment
`self.weights[:] = ...` requires the new array to fit the old length
(numpy broadcasts a length-1 right-hand side). -/
noncomputable def Neuron.learn (eta sigma : ℝ) (bi bj : ℕ) (x : List ℝ)
    (n : Neuron) : Except PyErr Neuron :=
  let dist : ℤ := ((n.posx : ℤ) - bi) ^ 2 + ((n.posy : ℤ) - bj) ^ 2
  if 2 * sigma * sigma = 0 then .error .zeroDivisionError
  else
    let h : ℝ := Real.exp (-(dist : ℝ) / (2 * sigma * sigma))
    (npBroadcast (fun a b => a - b) x n.weights).bind fun d =>
      (npBroadcast (fun a b => a + b) n.weights (d.map (fun t => eta * h * t))).bind fun nw =>
        if nw.length = n.weights.length then .ok { n with weights := nw }
        else if nw.length = 1 then
          .ok { n with weights := (n.weights.map (fun _ => nw.headI)) }
        else .error .valueError

/-- Gaussian neighbourhood kernel of the update rule, as computed in
`Neuron.learn` for a neuron at `(i, j)` and a winner at `(bi, bj)`. -/
noncomputable def kern (sigma : ℝ) (i j bi bj : ℕ) : ℝ :=
  let dist : ℤ := ((i : ℤ) - bi) ^ 2 + ((j : ℤ) - bj) ^ 2
  Real.exp (-(dist : ℝ) / (2 * sigma * sigma))

/-- Pure form of `Neuron.compute` on an input of matching dimension. -/
noncomputable def computeG (x : List ℝ) (n : Neuron) : Neuron :=
  { n with y := npNorm (vsub n.weights x) }

/-- Pure form of `Neuron.learn` on an input of matching dimension:
componentwise `w + eta * h * (x - w)`, every other field unchanged. -/
noncomputable def learnG (eta sigma : ℝ) (bi bj : ℕ) (x : List ℝ) (n : Neuron) : Neuron :=
  { n with weights := (List.zipWith
      (fun wv xv => wv + eta * kern sigma n.posx n.posy bi bj * (xv - wv)) n.weights x) }

lemma npBroadcast_eq (f : ℝ → ℝ → ℝ) (a b : List ℝ) (h : a.length = b.length) :
    npBroadcast f a b = .ok (List.zipWith f a b) := by
  simp [npBroadcast, h]

lemma exbind_ok {α β : Type} (a : α) (f : α → Except PyErr β) :
    Except.bind (.ok a) f = f a := rfl

lemma exmap_ok {α β : Type} (a : α) (f : α → β) :
    Except.map f (Except.ok (ε := PyErr) a) = .ok (f a) := rfl

lemma exmap_err {α β : Type} (e : PyErr) (f : α → β) :
    Except.map f (Except.error (α := α) e) = .error e := rfl

lemma zipWith_add_scale (c : ℝ) :
    ∀ (w x : List ℝ),
      List.zipWith (fun a b => a + b) w
        ((List.zipWith (fun a b => a - b) x w).map (fun t => c * t)) =
      List.zipWith (fun wv xv => wv + c * (xv - wv)) w x := by
  intro w
  induction w with
  | nil => intro x; simp
  | cons a t ih =>
    intro x
    cases x with
    | nil => simp
    | cons b s => simpa using ih s

lemma Neuron.compute_eq_ok (n : Neuron) (x : List ℝ) (hx : x.length = n.weights.length) :
    Neuron.compute n x = .ok (computeG x n) := by
  simp [Neuron.compute, npBroadcast, hx, computeG, vsub, Except.map]

lemma Neuron.learn_eq_ok (eta sigma : ℝ) (bi bj : ℕ) (x : List ℝ) (n : Neuron)
    (hs : sigma ≠ 0) (hx : x.length = n.weights.length) :
    Neuron.learn eta sigma bi bj x n = .ok (learnG eta sigma bi bj x n) := by
  have h2 : 2 * sigma * sigma ≠ 0 := by
    exact mul_ne_zero (mul_ne_zero two_ne_zero hs) hs
  simp only [Neuron.learn, if_neg h2]
  rw [npBroadcast_eq _ _ _ hx]
  simp only [exbind_ok]
  rw [npBroadcast_eq _ _ _ (by simp [hx])]
  simp only [exbind_ok]
  rw [if_pos (by simp [hx])]
  simp [learnG, zipWith_add_scale, kern]

/-- Claim C1: for every unit, `Neuron.learn` with parameters `eta`, `sigma`,
BMU position `(bi, bj)` and an input of the unit's dimension computes
`d2 = (posx - bi)^2 + (posy - bj)^2` and `h = exp(-d2 / (2*sigma^2))` and
replaces the weight vector by `weights + eta * h * (x - weights)`
componentwise; position and output are unchanged.  (`sigma = 0` is the
caller-contract violation the specification excludes: the kernel division
would raise.) -/
theorem claim_C1 (n : Neuron) (eta sigma : ℝ) (bi bj : ℕ) (x : List ℝ)
    (hs : sigma ≠ 0) (hx : x.length = n.weights.length) :
    Neuron.learn eta sigma bi bj x n =
      .ok { n with weights := (List.zipWith
        (fun wv xv => wv + eta *
          Real.exp (-((((n.posx : ℤ) - bi) ^ 2 + ((n.posy : ℤ) - bj) ^ 2 : ℤ) : ℝ) /
            (2 * sigma * sigma)) * (xv - wv)) n.weights x) } := by
  rw [Neuron.learn_eq_ok eta sigma bi bj x n hs hx]
  rfl

theorem claim_C1_witness :
    (1 : ℝ) ≠ 0 ∧ ([(2 : ℝ)] : List ℝ).length = ([(0 : ℝ)] : List ℝ).length ∧
    Neuron.learn 1 1 0 0 [(2 : ℝ)] ⟨[(0 : ℝ)], 0, 0, 0⟩ =
      .ok ⟨(List.zipWith
        (fun wv xv => wv + 1 *
          Real.exp (-(((((0 : ℕ) : ℤ) - ((0 : ℕ) : ℤ)) ^ 2 + (((0 : ℕ) : ℤ) - ((0 : ℕ) : ℤ)) ^ 2 : ℤ) : ℝ) /
            (2 * 1 * 1)) * (xv - wv)) [(0 : ℝ)] [(2 : ℝ)]), 0, 0, 0⟩ :=
  ⟨one_ne_zero, rfl, claim_C1 ⟨[(0 : ℝ)], 0, 0, 0⟩ 1 1 0 0 [(2 : ℝ)] one_ne_zero rfl⟩

/-- Claim C4 counterexample: a unit with weight vector `[0, 0]` activated on
the length-1 input `[1]` does not fail, although the lengths disagree: numpy
broadcasts the subtraction and the activation is stored normally. -/
theorem claim_C4_cex :
    ([(1 : ℝ)] : List ℝ).length ≠ ([(0 : ℝ), 0] : List ℝ).length ∧
    Neuron.compute ⟨[(0 : ℝ), 0], 0, 0, 0⟩ [(1 : ℝ)] =
      .ok ⟨[(0 : ℝ), 0], 0, 0, (npNorm [(0 : ℝ) - 1, 0 - 1])⟩ := by
  refine ⟨by simp, ?_⟩
  rfl

/-- Claim C4, amended: `Neuron.compute` stores
`activation = euclidean_norm(weights - x)` and changes nothing else when the
lengths agree; when the lengths disagree it fails (with numpy's
`ValueError`) only if neither length is 1, while a length-1 operand is
silently broadcast and the call succeeds. -/
theorem claim_C4 :
    (∀ (n : Neuron) (x : List ℝ), x.length = n.weights.length →
      Neuron.compute n x = .ok { n with y := npNorm (vsub n.weights x) }) ∧
    (∀ (n : Neuron) (x : List ℝ),
      x.length ≠ n.weights.length → n.weights.length ≠ 1 → x.length ≠ 1 →
      Neuron.compute n x = .error .valueError) ∧
    (∀ (n : Neuron) (x : List ℝ),
      x.length ≠ n.weights.length → (n.weights.length = 1 ∨ x.length = 1) →
      ∃ v, Neuron.compute n x = .ok { n with y := v }) := by
  refine ⟨fun n x h => Neuron.compute_eq_ok n x h, fun n x h h1 hx1 => ?_, fun n x h hone => ?_⟩
  · simp [Neuron.compute, npBroadcast, Ne.symm h, h1, hx1, exmap_err]
  · rcases hone with hw | hx1
    · have h1x : (1 : ℕ) ≠ x.length := by omega
      refine ⟨npNorm (x.map (fun b => n.weights.headI - b)), ?_⟩
      simp [Neuron.compute, npBroadcast, Ne.symm h, hw, h1x, exmap_ok]
    · have hw1 : n.weights.length ≠ 1 := by omega
      refine ⟨npNorm (n.weights.map (fun t => t - x.headI)), ?_⟩
      simp [Neuron.compute, npBroadcast, Ne.symm h, hw1, hx1, exmap_ok]

theorem claim_C4_witness :
    ([(3 : ℝ), 4] : List ℝ).length = ([(1 : ℝ), 2] : List ℝ).length ∧
    Neuron.compute ⟨[(1 : ℝ), 2], 0, 0, 0⟩ [(3 : ℝ), 4] =
      .ok ⟨[(1 : ℝ), 2], 0, 0, (npNorm (vsub [(1 : ℝ), 2] [(3 : ℝ), 4]))⟩ :=
  ⟨rfl, claim_C4.1 ⟨[(1 : ℝ), 2], 0, 0, 0⟩ [(3 : ℝ), 4] rfl⟩

/-- Model of the `SOM` class: input dimension (the flattened size of
`inputsize`), grid size `(height, width)`, the neuron grid `map` and the
cached activity grid `activitymap`. -/
structure SOM where
  inputsize : ℕ
  gridsize : ℕ × ℕ
  map : List (List Neuron)
  activitymap : List (List ℝ)

/-- Effectful map over a list in the `Except` monad, as the Python `for`
loops over the grid behave on success (a raised exception aborts the
call). -/
def exMapM {α β : Type} (f : α → Except PyErr β) : List α → Except PyErr (List β)
  | [] => .ok []
  | a :: t => (f a).bind fun b => (exMapM f t).map fun bs => b :: bs

lemma exMapM_ok_of_forall {α β : Type} (f : α → Except PyErr β) (g : α → β) :
    ∀ (l : List α), (∀ a ∈ l, f a = .ok (g a)) → exMapM f l = .ok (l.map g) := by
  intro l
  induction l with
  | nil => intro _; rfl
  | cons a t ih =>
    intro hall
    simp only [exMapM, hall a (by simp), ih (fun b hb => hall b (by simp [hb])),
      exbind_ok, exmap_ok, List.map]

lemma exMapM_forall₂ {α β : Type} (f : α → Except PyErr β) :
    ∀ (l : List α) (l' : List β), exMapM f l = .ok l' →
      List.Forall₂ (fun a b => f a = .ok b) l l' := by
  intro l
  induction l with
  | nil =>
    intro l' hl'
    cases hl'
    exact List.Forall₂.nil
  | cons a t ih =>
    intro l' hl'
    cases hfa : f a with
    | error e => rw [exMapM, hfa] at hl'; cases hl'
    | ok b =>
      rw [exMapM, hfa, exbind_ok] at hl'
      cases hrest : exMapM f t with
      | error e => rw [hrest] at hl'; cases hl'
      | ok bs =>
        rw [hrest, exmap_ok] at hl'
        cases hl'
        exact List.Forall₂.cons hfa (ih bs hrest)

lemma getD_map_lt {α β : Type} (f : α → β) (l : List α) (d : α) (d' : β) :
    ∀ (n : ℕ), n < l.length → (l.map f).getD n d' = f (l.getD n d) := by
  induction l with
  | nil => intro n hn; simp at hn
  | cons a t ih =>
    intro n hn
    cases n with
    | zero => rfl
    | succ m => simpa using ih m (by simpa using hn)

/-- Model of `SOM.__init__`: the neuron at `(i, j)` gets position `(i, j)`,
weight vector `w i j` (the random draw, injected as a function) and output
`0`; the cached activity grid starts as the neurons' outputs, i.e. all
zero. -/
def SOM.init (inputsize : ℕ) (gridsize : ℕ × ℕ) (w : ℕ → ℕ → List ℝ) : SOM where
  inputsize := inputsize
  gridsize := gridsize
  map := (List.range gridsize.1).map fun i =>
    (List.range gridsize.2).map fun j => ⟨w i j, i, j, 0⟩
  activitymap := (List.range gridsize.1).map fun _ =>
    (List.range gridsize.2).map fun _ => 0

/-- Model of `SOM.compute`: every neuron computes its output on the same
input, and the activity grid is refreshed from the neurons.  The Python
loops run over `range(gridsize)`, which traverses exactly the grid the
constructor builds. -/
noncomputable def SOM.compute (som : SOM) (x : List ℝ) : Except PyErr SOM :=
  (exMapM (fun row => exMapM (fun n => n.compute x) row) som.map).map fun m' =>
    { som with map := m', activitymap := (m'.map fun row => row.map fun n => n.y) }

/-- Index of the first minimum of a list: `numpy.argmin` on the flattened
(C-order) array, first occurrence winning on ties. -/
noncomputable def argminIdx : List ℝ → ℕ
  | [] => 0
  | [_] => 0
  | a :: b :: t =>
    if (b :: t).getD (argminIdx (b :: t)) 0 < a then argminIdx (b :: t) + 1 else 0

/-- BMU selection as written in `SOM.learn`:
`numpy.unravel_index(numpy.argmin(self.activitymap), self.gridsize)`. -/
noncomputable def SOM.findBMU (som : SOM) : ℕ × ℕ :=
  let k := argminIdx som.activitymap.flatten
  (k / som.gridsize.2, k % som.gridsize.2)

/-- Model of `SOM.learn`: find the winner from the cached activities, then
update every neuron with the Kohonen rule. -/
noncomputable def SOM.learn (eta sigma : ℝ) (x : List ℝ) (som : SOM) : Except PyErr SOM :=
  let p := som.findBMU
  (exMapM (fun row => exMapM (fun n => Neuron.learn eta sigma p.1 p.2 x n) row) som.map).map
    fun m' => { som with map := m' }

/-- Minimum of a flattened array, `numpy.min` (the program only takes
minima of non-empty grids; the empty case, which numpy rejects, is given
the junk value 0). -/
noncomputable def listMin : List ℝ → ℝ
  | [] => 0
  | a :: t => t.foldl min a

/-- Python float division by an integer count: `ZeroDivisionError` when the
count is zero. -/
noncomputable def pyDivNat (a : ℝ) (n : ℕ) : Except PyErr ℝ :=
  if n = 0 then .error .zeroDivisionError else .ok (a / n)

/-- Loop body of `SOM.quantification`: activate on each sample in turn and
accumulate the squared minimum of the activity cache. -/
noncomputable def quantLoop : SOM → ℝ → List (List ℝ) → Except PyErr (ℝ × SOM)
  | som, s, [] => .ok (s, som)
  | som, s, x :: rest =>
    (som.compute x).bind fun s' =>
      quantLoop s' (s + listMin s'.activitymap.flatten ^ 2) rest

/-- Model of `SOM.quantification`: the sample count is taken first, the
samples are processed in order, and the final division is the Python `/`
(which raises on a zero sample count).  The mutated grid after the last
sample is part of the result. -/
noncomputable def SOM.quantification (som : SOM) (X : List (List ℝ)) :
    Except PyErr (ℝ × SOM) :=
  (quantLoop som 0 X).bind fun r => (pyDivNat r.1 X.length).map fun q => (q, r.2)

/-- View of `self.weightsmap`: in the Python code a second array aliasing
the per-neuron weight storage, here the corresponding projection. -/
def SOM.weightsmap (som : SOM) : List (List (List ℝ)) :=
  som.map.map fun row => row.map fun n => n.weights

/-- Cell access in a weight grid, 2-D numpy indexing. -/
def wcell (w : List (List (List ℝ))) (i j : ℕ) : List ℝ := (w.getD i []).getD j []

/-- Neuron access in the grid. -/
def ncell (som : SOM) (i j : ℕ) : Neuron := (som.map.getD i []).getD j ⟨[], 0, 0, 0⟩

/-- Cached activity access. -/
def acell (som : SOM) (i j : ℕ) : ℝ := (som.activitymap.getD i []).getD j 0

/-- Uniform input dimension of all weight vectors in the grid. -/
def dimsOK (som : SOM) (D : ℕ) : Prop :=
  ∀ row ∈ som.map, ∀ n ∈ row, n.weights.length = D

/-- Pure form of a successful `SOM.compute`. -/
noncomputable def computeApply (x : List ℝ) (som : SOM) : SOM :=
  { som with map := (som.map.map fun row => row.map (computeG x)),
             activitymap := (som.map.map fun row => row.map fun n => npNorm (vsub n.weights x)) }

/-- Pure form of a successful `SOM.learn` with winner `p`. -/
noncomputable def learnApply (eta sigma : ℝ) (p : ℕ × ℕ) (x : List ℝ) (som : SOM) : SOM :=
  { som with map := (som.map.map fun row => row.map (learnG eta sigma p.1 p.2 x)) }

lemma SOM.compute_ok (som : SOM) (x : List ℝ) (D : ℕ)
    (hD : dimsOK som D) (hx : x.length = D) :
    SOM.compute som x = .ok (computeApply x som) := by
  have hrow : ∀ row ∈ som.map,
      exMapM (fun n => n.compute x) row = .ok (row.map (computeG x)) := by
    intro row hr
    exact exMapM_ok_of_forall _ _ row
      (fun n hn => Neuron.compute_eq_ok n x (by rw [hD row hr n hn, hx]))
  rw [SOM.compute, exMapM_ok_of_forall _ _ som.map hrow, exmap_ok]
  simp [computeApply, List.map_map, Function.comp_def, computeG]

lemma SOM.learn_ok (som : SOM) (eta sigma : ℝ) (x : List ℝ) (D : ℕ)
    (hD : dimsOK som D) (hx : x.length = D) (hs : sigma ≠ 0) :
    SOM.learn eta sigma x som = .ok (learnApply eta sigma som.findBMU x som) := by
  have hrow : ∀ row ∈ som.map,
      exMapM (fun n => Neuron.learn eta sigma som.findBMU.1 som.findBMU.2 x n) row =
        .ok (row.map (learnG eta sigma som.findBMU.1 som.findBMU.2 x)) := by
    intro row hr
    exact exMapM_ok_of_forall _ _ row
      (fun n hn => Neuron.learn_eq_ok eta sigma _ _ x n hs (by rw [hD row hr n hn, hx]))
  rw [SOM.learn, exMapM_ok_of_forall _ _ som.map hrow, exmap_ok]
  rfl

lemma argminIdx_lt : ∀ (l : List ℝ), 0 < l.length → argminIdx l < l.length := by
  intro l
  induction l with
  | nil => intro h; simp at h
  | cons a t ih =>
    intro _
    cases t with
    | nil => simp [argminIdx]
    | cons b s =>
      simp only [argminIdx]
      split
      · exact Nat.succ_lt_succ (ih (by simp))
      · simp

lemma argminIdx_min : ∀ (l : List ℝ) (j : ℕ), j < l.length →
    l.getD (argminIdx l) 0 ≤ l.getD j 0 := by
  intro l
  induction l with
  | nil => intro j hj; simp at hj
  | cons a t ih =>
    intro j hj
    cases t with
    | nil =>
      have hj0 : j = 0 := by simpa using hj
      subst hj0
      simp [argminIdx]
    | cons b s =>
      by_cases hlt : (b :: s).getD (argminIdx (b :: s)) 0 < a
      · simp only [argminIdx, if_pos hlt, List.getD_cons_succ]
        cases j with
        | zero => simpa using le_of_lt hlt
        | succ m =>
          simp only [List.getD_cons_succ]
          exact ih m (by simpa using hj)
      · simp only [argminIdx, if_neg hlt, List.getD_cons_zero]
        cases j with
        | zero => simp
        | succ m =>
          simp only [List.getD_cons_succ]
          exact le_trans (le_of_not_lt hlt) (ih m (by simpa using hj))

lemma argminIdx_first : ∀ (l : List ℝ) (j : ℕ), j < argminIdx l →
    l.getD (argminIdx l) 0 < l.getD j 0 := by
  intro l
  induction l with
  | nil => intro j hj; simp [argminIdx] at hj
  | cons a t ih =>
    intro j hj
    cases t with
    | nil => simp [argminIdx] at hj
    | cons b s =>
      by_cases hlt : (b :: s).getD (argminIdx (b :: s)) 0 < a
      · simp only [argminIdx, if_pos hlt] at hj
        simp only [argminIdx, if_pos hlt, List.getD_cons_succ]
        cases j with
        | zero => simpa using hlt
        | succ m =>
          simp only [List.getD_cons_succ]
          exact ih m (by omega)
      · simp only [argminIdx, if_neg hlt] at hj
        omega

lemma flatten_length_uniform {α : Type} (w : ℕ) :
    ∀ (rows : List (List α)), (∀ r ∈ rows, r.length = w) →
      rows.flatten.length = rows.length * w := by
  intro rows
  induction rows with
  | nil => intro _; simp
  | cons r t ih =>
    intro hall
    simp only [List.flatten_cons, List.length_append, List.length_cons,
      ih (fun x hx => hall x (by simp [hx])), hall r (by simp)]
    ring

lemma flatten_getD (w : ℕ) (hw : 0 < w) :
    ∀ (rows : List (List ℝ)) (k : ℕ), (∀ r ∈ rows, r.length = w) →
      k < rows.length * w →
      rows.flatten.getD k 0 = (rows.getD (k / w) []).getD (k % w) 0 := by
  intro rows
  induction rows with
  | nil => intro k _ hk; simp at hk
  | cons r t ih =>
    intro k hall hk
    have hr : r.length = w := hall r (by simp)
    by_cases hkw : k < w
    · rw [List.flatten_cons, List.getD_append _ _ _ _ (by rw [hr]; exact hkw)]
      rw [Nat.div_eq_of_lt hkw, Nat.mod_eq_of_lt hkw]
      rfl
    · push_neg at hkw
      rw [List.flatten_cons, List.getD_append_right _ _ _ _ (by rw [hr]; exact hkw)]
      rw [hr]
      have hdiv : k / w = (k - w) / w + 1 := Nat.div_eq_sub_div hw hkw
      rw [Nat.mod_eq_sub_mod hkw, hdiv]
      have hlt : k - w < t.length * w := by
        have hk' : k < t.length * w + w := by
          simpa [Nat.succ_mul] using hk
        omega
      rw [List.getD_cons_succ]
      exact ih (k - w) (fun x hx => hall x (by simp [hx])) hlt

lemma rowmajor_lt (i j h w : ℕ) (hi : i < h) (hj : j < w) : i * w + j < h * w := by
  calc i * w + j < i * w + w := Nat.add_lt_add_left hj _
    _ = (i + 1) * w := by rw [add_one_mul]
    _ ≤ h * w := mul_le_mul_right' (Nat.succ_le_of_lt hi) w

lemma rowmajor_div (i j w : ℕ) (hw : 0 < w) (hj : j < w) : (i * w + j) / w = i := by
  rw [mul_comm, Nat.mul_add_div hw, Nat.div_eq_of_lt hj, Nat.add_zero]

lemma rowmajor_mod (i j w : ℕ) (hj : j < w) : (i * w + j) % w = j := by
  rw [mul_comm, Nat.mul_add_mod, Nat.mod_eq_of_lt hj]

lemma bmu_spec (A : List (List ℝ)) (h w : ℕ) (hh : 0 < h) (hw : 0 < w)
    (hlen : A.length = h) (hrows : ∀ r ∈ A, r.length = w) :
    argminIdx A.flatten / w < h ∧ argminIdx A.flatten % w < w ∧
    (∀ i j, i < h → j < w →
      (A.getD (argminIdx A.flatten / w) []).getD (argminIdx A.flatten % w) 0 ≤
        (A.getD i []).getD j 0) ∧
    (∀ i j, i < h → j < w →
      (A.getD i []).getD j 0 =
        (A.getD (argminIdx A.flatten / w) []).getD (argminIdx A.flatten % w) 0 →
      argminIdx A.flatten / w < i ∨
        (argminIdx A.flatten / w = i ∧ argminIdx A.flatten % w ≤ j)) := by
  have hflen : A.flatten.length = h * w := by
    rw [flatten_length_uniform w A hrows, hlen]
  have hklt : argminIdx A.flatten < h * w := by
    have := argminIdx_lt A.flatten (by rw [hflen]; exact Nat.mul_pos hh hw)
    rwa [hflen] at this
  have hcell : ∀ (m : ℕ), m < h * w →
      A.flatten.getD m 0 = (A.getD (m / w) []).getD (m % w) 0 := by
    intro m hm
    exact flatten_getD w hw A m hrows (by rwa [hlen])
  have hkdiv : argminIdx A.flatten / w < h :=
    Nat.div_lt_of_lt_mul (by rwa [mul_comm] at hklt)
  have hkmod : argminIdx A.flatten % w < w := Nat.mod_lt _ hw
  refine ⟨hkdiv, hkmod, ?_, ?_⟩
  · intro i j hi hj
    have hr : i * w + j < h * w := rowmajor_lt i j h w hi hj
    have h1 : A.flatten.getD (argminIdx A.flatten) 0 ≤ A.flatten.getD (i * w + j) 0 :=
      argminIdx_min A.flatten (i * w + j) (by rwa [hflen])
    rwa [hcell _ hklt, hcell _ hr, rowmajor_div i j w hw hj, rowmajor_mod i j w hj] at h1
  · intro i j hi hj heq
    have hr : i * w + j < h * w := rowmajor_lt i j h w hi hj
    by_cases hrk : i * w + j < argminIdx A.flatten
    · exfalso
      have h1 : A.flatten.getD (argminIdx A.flatten) 0 < A.flatten.getD (i * w + j) 0 :=
        argminIdx_first A.flatten (i * w + j) hrk
      rw [hcell _ hklt, hcell _ hr, rowmajor_div i j w hw hj, rowmajor_mod i j w hj] at h1
      exact absurd heq (ne_of_gt h1)
    · push_neg at hrk
      have hk2 : w * (argminIdx A.flatten / w) + argminIdx A.flatten % w =
          argminIdx A.flatten := Nat.div_add_mod _ w
      rcases Nat.lt_trichotomy (argminIdx A.flatten / w) i with hlt | heqq | hgt
      · exact Or.inl hlt
      · refine Or.inr ⟨heqq, ?_⟩
        rw [heqq] at hk2
        have hle : w * i + argminIdx A.flatten % w ≤ w * i + j := by
          rw [hk2]
          calc argminIdx A.flatten ≤ i * w + j := hrk
            _ = w * i + j := by rw [mul_comm]
        exact Nat.le_of_add_le_add_left hle
      · exfalso
        have h1 : (i + 1) * w ≤ (argminIdx A.flatten / w) * w :=
          mul_le_mul_right' (Nat.succ_le_of_lt hgt) w
        have h2 : (argminIdx A.flatten / w) * w ≤ argminIdx A.flatten :=
          Nat.div_mul_le_self _ w
        have h3 : i * w + j < (i + 1) * w := by
          rw [add_one_mul]
          exact Nat.add_lt_add_left hj _
        have := le_trans (le_trans h1 h2) hrk
        exact absurd (lt_of_le_of_lt this h3) (lt_irrefl _)

/-- Claim C2: after `SOM.compute` on an input of the grid's dimension, the
BMU position that `SOM.learn` selects (`SOM.findBMU`) is within the grid,
its cached activation is the minimum of the whole activation cache, and
among the positions attaining the minimum it is the lowest in row-major
order (lowest row, then lowest column). -/
theorem claim_C2 (som : SOM) (x : List ℝ) (som' : SOM) (h w D : ℕ)
    (hg : som.gridsize = (h, w)) (hh : 0 < h) (hw : 0 < w)
    (hlen : som.map.length = h) (hrows : ∀ row ∈ som.map, row.length = w)
    (hD : dimsOK som D) (hx : x.length = D)
    (hc : som.compute x = .ok som') :
    som'.findBMU.1 < h ∧ som'.findBMU.2 < w ∧
    (∀ i j, i < h → j < w →
      acell som' som'.findBMU.1 som'.findBMU.2 ≤ acell som' i j) ∧
    (∀ i j, i < h → j < w →
      acell som' i j = acell som' som'.findBMU.1 som'.findBMU.2 →
      som'.findBMU.1 < i ∨ (som'.findBMU.1 = i ∧ som'.findBMU.2 ≤ j)) := by
  rw [SOM.compute_ok som x D hD hx] at hc
  injection hc with hc'
  subst hc'
  have hAlen : (computeApply x som).activitymap.length = h := by
    simp [computeApply, hlen]
  have hArows : ∀ r ∈ (computeApply x som).activitymap, r.length = w := by
    intro r hr
    simp only [computeApply, List.mem_map] at hr
    obtain ⟨row, hrow, rfl⟩ := hr
    simp [hrows row hrow]
  have hfb : (computeApply x som).findBMU =
      (argminIdx (computeApply x som).activitymap.flatten / w,
       argminIdx (computeApply x som).activitymap.flatten % w) := by
    simp [SOM.findBMU, computeApply, hg]
  obtain ⟨h1, h2, h3, h4⟩ :=
    bmu_spec (computeApply x som).activitymap h w hh hw hAlen hArows
  rw [hfb]
  exact ⟨h1, h2, h3, h4⟩

/-- Fixed example grid: a 1×2 map over 1-D inputs with weights `[1]` and
`[0]`. -/
def somW : SOM := ⟨1, (1, 2), [[⟨[1], 0, 0, 0⟩, ⟨[0], 0, 1, 0⟩]], [[0, 0]]⟩

lemma somW_dims : dimsOK somW 1 := by
  intro row hr n hn
  simp [somW] at hr
  subst hr
  simp only [List.mem_cons, List.not_mem_nil, or_false] at hn
  rcases hn with rfl | rfl <;> rfl

lemma somW_rows : ∀ row ∈ somW.map, row.length = 2 := by
  intro row hr
  simp [somW] at hr
  subst hr
  rfl

lemma somW_compute : somW.compute [(0 : ℝ)] = .ok (computeApply [(0 : ℝ)] somW) :=
  SOM.compute_ok somW [(0 : ℝ)] 1 somW_dims rfl

theorem claim_C2_witness :
    somW.compute [(0 : ℝ)] = .ok (computeApply [(0 : ℝ)] somW) ∧
    ((computeApply [(0 : ℝ)] somW).findBMU.1 < 1 ∧
     (computeApply [(0 : ℝ)] somW).findBMU.2 < 2 ∧
     (∀ i j, i < 1 → j < 2 →
       acell (computeApply [(0 : ℝ)] somW) (computeApply [(0 : ℝ)] somW).findBMU.1
           (computeApply [(0 : ℝ)] somW).findBMU.2 ≤
         acell (computeApply [(0 : ℝ)] somW) i j) ∧
     (∀ i j, i < 1 → j < 2 →
       acell (computeApply [(0 : ℝ)] somW) i j =
         acell (computeApply [(0 : ℝ)] somW) (computeApply [(0 : ℝ)] somW).findBMU.1
           (computeApply [(0 : ℝ)] somW).findBMU.2 →
       (computeApply [(0 : ℝ)] somW).findBMU.1 < i ∨
         ((computeApply [(0 : ℝ)] somW).findBMU.1 = i ∧
           (computeApply [(0 : ℝ)] somW).findBMU.2 ≤ j))) := by
  exact ⟨somW_compute,
    claim_C2 somW [(0 : ℝ)] _ 1 2 1 rfl one_pos (by norm_num) rfl somW_rows somW_dims rfl
      somW_compute⟩

/-- Invariant of the redundant cache: the activity grid equals the neurons'
stored outputs. -/
def SomSync (som : SOM) : Prop :=
  som.activitymap = som.map.map fun row => row.map fun n => n.y

lemma exbind_ok_inv {α β : Type} {e : Except PyErr α} {f : α → Except PyErr β} {b : β}
    (h : e.bind f = .ok b) : ∃ a, e = .ok a ∧ f a = .ok b := by
  cases e with
  | error _ => cases h
  | ok a => exact ⟨a, rfl, h⟩

lemma exmap_ok_inv {α β : Type} {e : Except PyErr α} {f : α → β} {b : β}
    (h : Except.map f e = .ok b) : ∃ a, e = .ok a ∧ f a = b := by
  cases e with
  | error _ => cases h
  | ok a =>
    rw [exmap_ok] at h
    injection h with h'
    exact ⟨a, rfl, h'⟩

lemma forall₂_map_eq {α β γ : Type} (g : α → γ) (g' : β → γ) :
    ∀ {l : List α} {l' : List β}, List.Forall₂ (fun a b => g a = g' b) l l' →
      l.map g = l'.map g' := by
  intro l l' hf
  induction hf with
  | nil => rfl
  | cons h _ ih => simp only [List.map_cons, h, ih]

lemma compute_sync (som : SOM) (x : List ℝ) (s' : SOM)
    (hc : som.compute x = .ok s') : SomSync s' := by
  simp only [SOM.compute] at hc
  obtain ⟨m', _, hval⟩ := exmap_ok_inv hc
  subst hval
  rfl

lemma Neuron.learn_fields (eta sigma : ℝ) (bi bj : ℕ) (x : List ℝ) (n n' : Neuron)
    (h : Neuron.learn eta sigma bi bj x n = .ok n') :
    n'.y = n.y ∧ n'.posx = n.posx ∧ n'.posy = n.posy := by
  simp only [Neuron.learn] at h
  split at h
  · cases h
  · obtain ⟨d, _, h⟩ := exbind_ok_inv h
    obtain ⟨nw, _, h⟩ := exbind_ok_inv h
    split at h
    · injection h with h'
      subst h'
      exact ⟨rfl, rfl, rfl⟩
    · split at h
      · injection h with h'
        subst h'
        exact ⟨rfl, rfl, rfl⟩
      · cases h

lemma learn_sync (som : SOM) (eta sigma : ℝ) (x : List ℝ) (s' : SOM)
    (hsync : SomSync som) (hl : SOM.learn eta sigma x som = .ok s') : SomSync s' := by
  simp only [SOM.learn] at hl
  obtain ⟨m', hm, hval⟩ := exmap_ok_inv hl
  subst hval
  have houter := exMapM_forall₂ _ som.map m' hm
  have hmapy : som.map.map (fun row => row.map fun n => n.y) =
      m'.map (fun row => row.map fun n => n.y) := by
    refine forall₂_map_eq _ _ (houter.imp ?_)
    intro row row' hrow
    have hinner := exMapM_forall₂ _ row row' hrow
    refine forall₂_map_eq _ _ (hinner.imp ?_)
    intro a b hb
    exact ((Neuron.learn_fields _ _ _ _ _ a b hb).1).symm
  exact hsync.trans hmapy

lemma quantLoop_sync : ∀ (X : List (List ℝ)) (som : SOM) (s : ℝ) (r : ℝ × SOM),
    SomSync som → quantLoop som s X = .ok r → SomSync r.2 := by
  intro X
  induction X with
  | nil =>
    intro som s r hs hq
    simp only [quantLoop] at hq
    injection hq with h'
    rw [← h']
    exact hs
  | cons x rest ih =>
    intro som s r hs hq
    simp only [quantLoop] at hq
    obtain ⟨s1, hc, hq⟩ := exbind_ok_inv hq
    exact ih s1 _ r (compute_sync som x s1 hc) hq

lemma quant_sync (som : SOM) (X : List (List ℝ)) (q : ℝ) (s' : SOM)
    (hs : SomSync som) (hq : som.quantification X = .ok (q, s')) : SomSync s' := by
  simp only [SOM.quantification] at hq
  obtain ⟨r, hloop, hq⟩ := exbind_ok_inv hq
  obtain ⟨qq, _, hq2⟩ := exmap_ok_inv hq
  have hr2 : r.2 = s' := congrArg Prod.snd hq2
  rw [← hr2]
  exact quantLoop_sync X som 0 r hs hloop

/-- Claim C8: construction initialises every cached activation (and every
neuron output) to the zero sentinel and establishes the cache invariant
`activitymap = outputs of map`; every successful `SOM.compute` establishes
it, and every successful `SOM.learn` and `SOM.quantification` preserves
it. -/
theorem claim_C8 :
    (∀ (inputsize : ℕ) (g : ℕ × ℕ) (w : ℕ → ℕ → List ℝ),
      SomSync (SOM.init inputsize g w) ∧
      ∀ row ∈ (SOM.init inputsize g w).activitymap, ∀ v ∈ row, v = 0) ∧
    (∀ (som : SOM) (x : List ℝ) (s' : SOM), som.compute x = .ok s' → SomSync s') ∧
    (∀ (som : SOM) (eta sigma : ℝ) (x : List ℝ) (s' : SOM),
      SomSync som → SOM.learn eta sigma x som = .ok s' → SomSync s') ∧
    (∀ (som : SOM) (X : List (List ℝ)) (q : ℝ) (s' : SOM),
      SomSync som → som.quantification X = .ok (q, s') → SomSync s') := by
  refine ⟨fun inputsize g w => ⟨?_, ?_⟩, compute_sync, learn_sync, quant_sync⟩
  · simp [SomSync, SOM.init, List.map_map, Function.comp_def]
  · intro row hr v hv
    simp only [SOM.init, List.mem_map] at hr
    obtain ⟨i, _, rfl⟩ := hr
    simp only [List.mem_map] at hv
    obtain ⟨j, _, rfl⟩ := hv
    rfl

theorem claim_C8_witness :
    somW.compute [(0 : ℝ)] = .ok (computeApply [(0 : ℝ)] somW) ∧
    SomSync (computeApply [(0 : ℝ)] somW) :=
  ⟨somW_compute, claim_C8.2.1 somW [(0 : ℝ)] _ somW_compute⟩

/-- Claim C3 counterexample: on a zero-sample dataset `quantification`
reaches the division `s / nsamples` unguarded and fails with Python's
`ZeroDivisionError`, which is not the specification's `EmptyDataset`
error. -/
theorem claim_C3_cex :
    SOM.quantification somW [] = .error .zeroDivisionError ∧
    PyErr.zeroDivisionError ≠ PyErr.emptyDataset :=
  ⟨rfl, by decide⟩

/-- Claim C3, amended: on a dataset with zero samples `quantification`
fails, but with an unguarded `ZeroDivisionError` from performing
`s / nsamples`; there is no explicit `EmptyDataset` guard in the code. -/
theorem claim_C3 (som : SOM) :
    SOM.quantification som [] = .error .zeroDivisionError := rfl

/-- Squared distance between two weight vectors:
`numpy.linalg.norm(a - b) ** 2`. -/
noncomputable def d2 (a b : List ℝ) : ℝ := npNorm (vsub a b) ^ 2

/-- Per-cell squared-distance accumulator shared by
`compute_local_roughness` and `carte_de_chaleur_distorsion`: the sum over
the existing 4-connected neighbours (up, down, left, right). -/
noncomputable def cellDist (w : List (List (List ℝ))) (h c i j : ℕ) : ℝ :=
  (if 0 < i then d2 (wcell w i j) (wcell w (i - 1) j) else 0) +
  (if i < h - 1 then d2 (wcell w i j) (wcell w (i + 1) j) else 0) +
  (if 0 < j then d2 (wcell w i j) (wcell w i (j - 1)) else 0) +
  (if j < c - 1 then d2 (wcell w i j) (wcell w i (j + 1)) else 0)

/-- Per-cell neighbour count shared by `compute_local_roughness` and
`carte_de_chaleur_distorsion`. -/
def cellCount (h c i j : ℕ) : ℕ :=
  (if 0 < i then 1 else 0) + (if i < h - 1 then 1 else 0) +
  (if 0 < j then 1 else 0) + (if j < c - 1 then 1 else 0)

/-- Model of `distorsion_locale_moyenne`: accumulate the squared weight
distance to the right and bottom neighbour of every cell (each edge once),
then divide by the edge count with the Python `/` (unguarded). -/
noncomputable def distorsion_locale_moyenne (network : SOM) : Except PyErr ℝ :=
  let w := network.weightsmap
  let h := network.gridsize.1
  let c := network.gridsize.2
  let total := ∑ i ∈ Finset.range h, ∑ j ∈ Finset.range c,
    ((if i + 1 < h then d2 (wcell w i j) (wcell w (i + 1) j) else 0) +
     (if j + 1 < c then d2 (wcell w i j) (wcell w i (j + 1)) else 0))
  let count := ∑ i ∈ Finset.range h, ∑ j ∈ Finset.range c,
    ((if i + 1 < h then 1 else 0) + (if j + 1 < c then 1 else 0))
  pyDivNat total count

/-- Model of `compute_local_roughness`: accumulate the squared weight
distance over every ordered neighbour pair (each edge from both endpoints),
divide by the pair count, explicitly guarded to 0 when there is no pair.
The shape `(height, width, dim)` is read off the array. -/
noncomputable def compute_local_roughness (weight_grid : List (List (List ℝ))) : ℝ :=
  let height := weight_grid.length
  let width := (weight_grid.getD 0 []).length
  let total := ∑ i ∈ Finset.range height, ∑ j ∈ Finset.range width,
    cellDist weight_grid height width i j
  let count := ∑ i ∈ Finset.range height, ∑ j ∈ Finset.range width,
    cellCount height width i j
  if 0 < count then total / count else 0

/-- Model of `carte_de_chaleur_distorsion`: the per-cell heat-map values
(mean squared distance to the existing neighbours, 0 for an isolated cell);
the plotting side effects are outside the model. -/
noncomputable def carte_de_chaleur_distorsion (network : SOM) : List (List ℝ) :=
  let w := network.weightsmap
  let h := network.gridsize.1
  let c := network.gridsize.2
  (List.range h).map fun i => (List.range c).map fun j =>
    if 0 < cellCount h c i j then cellDist w h c i j / cellCount h c i j else 0

lemma d2_nonneg (a b : List ℝ) : 0 ≤ d2 a b := sq_nonneg _

lemma ite_d2_nonneg (P : Prop) [Decidable P] (a b : List ℝ) :
    0 ≤ if P then d2 a b else 0 := by
  split
  · exact d2_nonneg a b
  · exact le_refl 0

lemma cellDist_nonneg (w : List (List (List ℝ))) (h c i j : ℕ) :
    0 ≤ cellDist w h c i j :=
  add_nonneg (add_nonneg (add_nonneg (ite_d2_nonneg _ _ _) (ite_d2_nonneg _ _ _))
    (ite_d2_nonneg _ _ _)) (ite_d2_nonneg _ _ _)

lemma range_getD : ∀ (n i d : ℕ), i < n → (List.range n).getD i d = i := by
  intro n
  induction n with
  | zero => intro i d h; simp at h
  | succ m ih =>
    intro i d h
    rw [List.range_succ_eq_map]
    cases i with
    | zero => rfl
    | succ k =>
      rw [List.getD_cons_succ]
      rw [getD_map_lt Nat.succ (List.range m) 0 d k (by simp; omega)]
      rw [ih k 0 (by omega)]

lemma getD_default_of_le {α : Type} :
    ∀ (l : List α) (d : α) (n : ℕ), l.length ≤ n → l.getD n d = d := by
  intro l
  induction l with
  | nil => intro d n _; simp
  | cons a t ih =>
    intro d n h
    cases n with
    | zero => simp at h
    | succ m =>
      rw [List.getD_cons_succ]
      exact ih d m (by simpa using h)

lemma getD_mem_of_lt {α : Type} :
    ∀ (l : List α) (n : ℕ) (d : α), n < l.length → l.getD n d ∈ l := by
  intro l
  induction l with
  | nil => intro n d h; simp at h
  | cons a t ih =>
    intro n d h
    cases n with
    | zero => exact List.mem_cons_self _ _
    | succ m => exact List.mem_cons_of_mem _ (ih m d (by simpa using h))

lemma getD_getD_nonneg (L : List (List ℝ)) (hL : ∀ row ∈ L, ∀ v ∈ row, 0 ≤ v)
    (i j : ℕ) : 0 ≤ (L.getD i []).getD j 0 := by
  by_cases hi : i < L.length
  · have hrow : L.getD i [] ∈ L := getD_mem_of_lt L i [] hi
    by_cases hj : j < (L.getD i []).length
    · exact hL _ hrow _ (getD_mem_of_lt _ j 0 hj)
    · rw [getD_default_of_le _ _ _ (Nat.le_of_not_lt hj)]
  · rw [getD_default_of_le _ _ _ (Nat.le_of_not_lt hi)]
    simp

/-- Claim C7: `compute_local_roughness` and every cell of
`carte_de_chaleur_distorsion` are nonnegative, and on a 1×1 grid both are
exactly 0 through the explicit `count > 0` guards. -/
theorem claim_C7 :
    (∀ wg : List (List (List ℝ)), 0 ≤ compute_local_roughness wg) ∧
    (∀ (net : SOM) (i j : ℕ),
      0 ≤ ((carte_de_chaleur_distorsion net).getD i []).getD j 0) ∧
    (∀ wg : List (List (List ℝ)), wg.length = 1 → (wg.getD 0 []).length = 1 →
      compute_local_roughness wg = 0) ∧
    (∀ net : SOM, net.gridsize = (1, 1) → carte_de_chaleur_distorsion net = [[0]]) := by
  refine ⟨?_, ?_, ?_, ?_⟩
  · intro wg
    simp only [compute_local_roughness]
    split
    · refine div_nonneg ?_ (Nat.cast_nonneg _)
      exact Finset.sum_nonneg fun i _ => Finset.sum_nonneg fun j _ =>
        cellDist_nonneg _ _ _ _ _
    · exact le_refl 0
  · intro net i j
    refine getD_getD_nonneg _ ?_ i j
    intro row hrow v hv
    simp only [carte_de_chaleur_distorsion, List.mem_map] at hrow
    obtain ⟨ii, _, rfl⟩ := hrow
    simp only [List.mem_map] at hv
    obtain ⟨jj, _, rfl⟩ := hv
    split
    · exact div_nonneg (cellDist_nonneg _ _ _ _ _) (Nat.cast_nonneg _)
    · exact le_refl 0
  · intro wg h1 hw1
    simp only [compute_local_roughness, h1, hw1, Finset.sum_range_one]
    norm_num [cellCount]
  · intro net hg
    have h1 : List.range 1 = [0] := rfl
    simp only [carte_de_chaleur_distorsion, hg, h1, List.map_cons, List.map_nil]
    norm_num [cellCount]

theorem claim_C7_witness :
    ([[[(5 : ℝ)]]] : List (List (List ℝ))).length = 1 ∧
    (([[[(5 : ℝ)]]] : List (List (List ℝ))).getD 0 []).length = 1 ∧
    compute_local_roughness [[[(5 : ℝ)]]] = 0 :=
  ⟨rfl, rfl, claim_C7.2.2.1 [[[(5 : ℝ)]]] rfl rfl⟩

lemma sum_ite_succ_lt (h : ℕ) :
    (∑ i ∈ Finset.range h, if i + 1 < h then (1 : ℕ) else 0) = h - 1 := by
  cases h with
  | zero => rfl
  | succ m =>
    rw [Finset.sum_range_succ]
    have hall : (∑ i ∈ Finset.range m, if i + 1 < m + 1 then (1 : ℕ) else 0) = m := by
      rw [Finset.sum_congr rfl (fun i hi => if_pos (Nat.succ_lt_succ (Finset.mem_range.1 hi)))]
      simp
    rw [hall]
    simp

lemma edge_count (h c : ℕ) :
    (∑ i ∈ Finset.range h, ∑ j ∈ Finset.range c,
      ((if i + 1 < h then (1 : ℕ) else 0) + (if j + 1 < c then 1 else 0))) =
    (h - 1) * c + h * (c - 1) := by
  have hsplit : ∀ i, (∑ j ∈ Finset.range c,
      ((if i + 1 < h then (1 : ℕ) else 0) + (if j + 1 < c then 1 else 0))) =
      c * (if i + 1 < h then 1 else 0) + (c - 1) := by
    intro i
    rw [Finset.sum_add_distrib, Finset.sum_const, Finset.card_range, sum_ite_succ_lt c]
    simp [smul_eq_mul]
  rw [Finset.sum_congr rfl (fun i _ => hsplit i), Finset.sum_add_distrib,
    Finset.sum_const, Finset.card_range, ← Finset.mul_sum, sum_ite_succ_lt h]
  simp [smul_eq_mul, Nat.mul_comm]

lemma edge_count_pos (h c : ℕ) (hh : 0 < h) (hc : 0 < c) (he : 1 < h ∨ 1 < c) :
    0 < (h - 1) * c + h * (c - 1) := by
  rcases he with he | he
  · exact Nat.add_pos_left (Nat.mul_pos (by omega) hc) _
  · exact Nat.add_pos_right _ (Nat.mul_pos hh (by omega))

/-- Claim C6: on a grid with at least one edge, `distorsion_locale_moyenne`
returns the sum over the right-neighbour and bottom-neighbour edges (each
edge once) of the squared weight distance, divided by the number of edges
`(h-1)*c + h*(c-1)`; on a 1×1 grid the division is performed unguarded and
fails with `ZeroDivisionError` instead of silently returning 0. -/
theorem claim_C6 (net : SOM) (h c : ℕ) (hg : net.gridsize = (h, c)) :
    ((0 < h → 0 < c → (1 < h ∨ 1 < c) →
      distorsion_locale_moyenne net =
        .ok ((∑ i ∈ Finset.range h, ∑ j ∈ Finset.range c,
          ((if i + 1 < h then
              d2 (wcell net.weightsmap i j) (wcell net.weightsmap (i + 1) j) else 0) +
           (if j + 1 < c then
              d2 (wcell net.weightsmap i j) (wcell net.weightsmap i (j + 1)) else 0))) /
          (((h - 1) * c + h * (c - 1) : ℕ) : ℝ)) ∧
      0 < (h - 1) * c + h * (c - 1))) ∧
    (h = 1 → c = 1 → distorsion_locale_moyenne net = .error .zeroDivisionError) := by
  constructor
  · intro hh hc he
    have hpos := edge_count_pos h c hh hc he
    refine ⟨?_, hpos⟩
    simp only [distorsion_locale_moyenne, hg]
    rw [edge_count h c, pyDivNat, if_neg hpos.ne']
  · intro h1 c1
    subst h1
    subst c1
    simp only [distorsion_locale_moyenne, hg]
    norm_num [pyDivNat, Finset.sum_range_one]

theorem claim_C6_witness :
    (0 : ℕ) < 1 ∧ (0 : ℕ) < 2 ∧ ((1 : ℕ) < 1 ∨ (1 : ℕ) < 2) ∧
    (distorsion_locale_moyenne somW =
      .ok ((∑ i ∈ Finset.range 1, ∑ j ∈ Finset.range 2,
        ((if i + 1 < 1 then
            d2 (wcell somW.weightsmap i j) (wcell somW.weightsmap (i + 1) j) else 0) +
         (if j + 1 < 2 then
            d2 (wcell somW.weightsmap i j) (wcell somW.weightsmap i (j + 1)) else 0))) /
        (((1 - 1) * 2 + 1 * (2 - 1) : ℕ) : ℝ)) ∧
      0 < (1 - 1) * 2 + 1 * (2 - 1)) :=
  ⟨one_pos, by norm_num, Or.inr (by norm_num),
    (claim_C6 somW 1 2 rfl).1 one_pos (by norm_num) (Or.inr (by norm_num))⟩

lemma vsub_sq_comm : ∀ (a b : List ℝ),
    (vsub a b).map (fun t => t ^ 2) = (vsub b a).map (fun t => t ^ 2) := by
  intro a
  induction a with
  | nil => intro b; cases b <;> rfl
  | cons x t ih =>
    intro b
    cases b with
    | nil => rfl
    | cons y s =>
      simp only [vsub, List.zipWith_cons_cons, List.map_cons] at ih ⊢
      have hh : (x - y) ^ 2 = (y - x) ^ 2 := by ring
      rw [hh]
      exact congrArg _ (ih s)

lemma d2_symm (a b : List ℝ) : d2 a b = d2 b a := by
  simp only [d2, npNorm]
  rw [vsub_sq_comm]

lemma sum_shift_ite {M : Type} [AddCommMonoid M] (h : ℕ) (g : ℕ → M) :
    (∑ i ∈ Finset.range h, if 0 < i then g i else 0) =
    ∑ i ∈ Finset.range h, if i + 1 < h then g (i + 1) else 0 := by
  cases h with
  | zero => rfl
  | succ m =>
    rw [Finset.sum_range_succ' (fun i => if 0 < i then g i else 0) m]
    rw [Finset.sum_range_succ (fun i => if i + 1 < m + 1 then g (i + 1) else 0) m]
    have hL : ∀ i ∈ Finset.range m, (if 0 < i + 1 then g (i + 1) else 0) = g (i + 1) :=
      fun i _ => if_pos (Nat.succ_pos i)
    have hR : ∀ i ∈ Finset.range m, (if i + 1 < m + 1 then g (i + 1) else 0) = g (i + 1) :=
      fun i hi => if_pos (Nat.succ_lt_succ (Finset.mem_range.1 hi))
    rw [Finset.sum_congr rfl hL, Finset.sum_congr rfl hR]
    simp

lemma sum_up_eq_down {M : Type} [AddCommMonoid M] (h c : ℕ) (f : ℕ → ℕ → ℕ → ℕ → M)
    (hsymm : ∀ i j, f (i + 1) j i j = f i j (i + 1) j) :
    (∑ i ∈ Finset.range h, ∑ j ∈ Finset.range c, if 0 < i then f i j (i - 1) j else 0) =
    ∑ i ∈ Finset.range h, ∑ j ∈ Finset.range c, if i + 1 < h then f i j (i + 1) j else 0 := by
  have hL : (∑ i ∈ Finset.range h, ∑ j ∈ Finset.range c, if 0 < i then f i j (i - 1) j else 0)
      = ∑ j ∈ Finset.range c, ∑ i ∈ Finset.range h, if 0 < i then f i j (i - 1) j else 0 :=
    Finset.sum_comm
  have hR : (∑ i ∈ Finset.range h, ∑ j ∈ Finset.range c, if i + 1 < h then f i j (i + 1) j else 0)
      = ∑ j ∈ Finset.range c, ∑ i ∈ Finset.range h, if i + 1 < h then f i j (i + 1) j else 0 :=
    Finset.sum_comm
  rw [hL, hR]
  refine Finset.sum_congr rfl fun j _ => ?_
  rw [sum_shift_ite h (fun i => f i j (i - 1) j)]
  refine Finset.sum_congr rfl fun i _ => ?_
  by_cases hi : i + 1 < h
  · rw [if_pos hi, if_pos hi, Nat.add_sub_cancel, hsymm]
  · rw [if_neg hi, if_neg hi]

lemma sum_left_eq_right {M : Type} [AddCommMonoid M] (h c : ℕ) (f : ℕ → ℕ → ℕ → ℕ → M)
    (hsymm : ∀ i j, f i (j + 1) i j = f i j i (j + 1)) :
    (∑ i ∈ Finset.range h, ∑ j ∈ Finset.range c, if 0 < j then f i j i (j - 1) else 0) =
    ∑ i ∈ Finset.range h, ∑ j ∈ Finset.range c, if j + 1 < c then f i j i (j + 1) else 0 := by
  refine Finset.sum_congr rfl fun i _ => ?_
  rw [sum_shift_ite c (fun j => f i j i (j - 1))]
  refine Finset.sum_congr rfl fun j _ => ?_
  by_cases hj : j + 1 < c
  · rw [if_pos hj, if_pos hj, Nat.add_sub_cancel, hsymm]
  · rw [if_neg hj, if_neg hj]

lemma sum2_add {M : Type} [AddCommMonoid M] (h c : ℕ) (F G : ℕ → ℕ → M) :
    (∑ i ∈ Finset.range h, ∑ j ∈ Finset.range c, (F i j + G i j)) =
    (∑ i ∈ Finset.range h, ∑ j ∈ Finset.range c, F i j) +
    (∑ i ∈ Finset.range h, ∑ j ∈ Finset.range c, G i j) := by
  rw [← Finset.sum_add_distrib]
  exact Finset.sum_congr rfl fun i _ => Finset.sum_add_distrib

lemma rough_total_eq (W : List (List (List ℝ))) (h c : ℕ) :
    (∑ i ∈ Finset.range h, ∑ j ∈ Finset.range c, cellDist W h c i j) =
    2 * (∑ i ∈ Finset.range h, ∑ j ∈ Finset.range c,
      ((if i + 1 < h then d2 (wcell W i j) (wcell W (i + 1) j) else 0) +
       (if j + 1 < c then d2 (wcell W i j) (wcell W i (j + 1)) else 0))) := by
  have e1 : (∑ i ∈ Finset.range h, ∑ j ∈ Finset.range c, cellDist W h c i j) =
      (∑ i ∈ Finset.range h, ∑ j ∈ Finset.range c,
        if 0 < i then d2 (wcell W i j) (wcell W (i - 1) j) else 0) +
      (∑ i ∈ Finset.range h, ∑ j ∈ Finset.range c,
        if i < h - 1 then d2 (wcell W i j) (wcell W (i + 1) j) else 0) +
      (∑ i ∈ Finset.range h, ∑ j ∈ Finset.range c,
        if 0 < j then d2 (wcell W i j) (wcell W i (j - 1)) else 0) +
      (∑ i ∈ Finset.range h, ∑ j ∈ Finset.range c,
        if j < c - 1 then d2 (wcell W i j) (wcell W i (j + 1)) else 0) := by
    simp only [cellDist]
    rw [sum2_add, sum2_add, sum2_add]
  have e2 : (∑ i ∈ Finset.range h, ∑ j ∈ Finset.range c,
        if 0 < i then d2 (wcell W i j) (wcell W (i - 1) j) else 0) =
      ∑ i ∈ Finset.range h, ∑ j ∈ Finset.range c,
        if i + 1 < h then d2 (wcell W i j) (wcell W (i + 1) j) else 0 :=
    sum_up_eq_down h c (fun a b a' b' => d2 (wcell W a b) (wcell W a' b'))
      (fun i j => d2_symm _ _)
  have e3 : (∑ i ∈ Finset.range h, ∑ j ∈ Finset.range c,
        if i < h - 1 then d2 (wcell W i j) (wcell W (i + 1) j) else 0) =
      ∑ i ∈ Finset.range h, ∑ j ∈ Finset.range c,
        if i + 1 < h then d2 (wcell W i j) (wcell W (i + 1) j) else 0 := by
    refine Finset.sum_congr rfl fun i _ => Finset.sum_congr rfl fun j _ => ?_
    exact if_congr (by omega) rfl rfl
  have e4 : (∑ i ∈ Finset.range h, ∑ j ∈ Finset.range c,
        if 0 < j then d2 (wcell W i j) (wcell W i (j - 1)) else 0) =
      ∑ i ∈ Finset.range h, ∑ j ∈ Finset.range c,
        if j + 1 < c then d2 (wcell W i j) (wcell W i (j + 1)) else 0 :=
    sum_left_eq_right h c (fun a b a' b' => d2 (wcell W a b) (wcell W a' b'))
      (fun i j => d2_symm _ _)
  have e5 : (∑ i ∈ Finset.range h, ∑ j ∈ Finset.range c,
        if j < c - 1 then d2 (wcell W i j) (wcell W i (j + 1)) else 0) =
      ∑ i ∈ Finset.range h, ∑ j ∈ Finset.range c,
        if j + 1 < c then d2 (wcell W i j) (wcell W i (j + 1)) else 0 := by
    refine Finset.sum_congr rfl fun i _ => Finset.sum_congr rfl fun j _ => ?_
    exact if_congr (by omega) rfl rfl
  rw [e1, e2, e3, e4, e5, sum2_add]
  ring

lemma rough_count_eq (h c : ℕ) :
    (∑ i ∈ Finset.range h, ∑ j ∈ Finset.range c, cellCount h c i j) =
    2 * ((h - 1) * c + h * (c - 1)) := by
  have e1 : (∑ i ∈ Finset.range h, ∑ j ∈ Finset.range c, cellCount h c i j) =
      (∑ i ∈ Finset.range h, ∑ j ∈ Finset.range c, if 0 < i then (1 : ℕ) else 0) +
      (∑ i ∈ Finset.range h, ∑ j ∈ Finset.range c, if i < h - 1 then (1 : ℕ) else 0) +
      (∑ i ∈ Finset.range h, ∑ j ∈ Finset.range c, if 0 < j then (1 : ℕ) else 0) +
      (∑ i ∈ Finset.range h, ∑ j ∈ Finset.range c, if j < c - 1 then (1 : ℕ) else 0) := by
    simp only [cellCount]
    rw [sum2_add, sum2_add, sum2_add]
  have e2 : (∑ i ∈ Finset.range h, ∑ j ∈ Finset.range c, if 0 < i then (1 : ℕ) else 0) =
      ∑ i ∈ Finset.range h, ∑ j ∈ Finset.range c, if i + 1 < h then (1 : ℕ) else 0 :=
    sum_up_eq_down h c (fun _ _ _ _ => (1 : ℕ)) (fun _ _ => rfl)
  have e3 : (∑ i ∈ Finset.range h, ∑ j ∈ Finset.range c, if i < h - 1 then (1 : ℕ) else 0) =
      ∑ i ∈ Finset.range h, ∑ j ∈ Finset.range c, if i + 1 < h then (1 : ℕ) else 0 := by
    refine Finset.sum_congr rfl fun i _ => Finset.sum_congr rfl fun j _ => ?_
    exact if_congr (by omega) rfl rfl
  have e4 : (∑ i ∈ Finset.range h, ∑ j ∈ Finset.range c, if 0 < j then (1 : ℕ) else 0) =
      ∑ i ∈ Finset.range h, ∑ j ∈ Finset.range c, if j + 1 < c then (1 : ℕ) else 0 :=
    sum_left_eq_right h c (fun _ _ _ _ => (1 : ℕ)) (fun _ _ => rfl)
  have e5 : (∑ i ∈ Finset.range h, ∑ j ∈ Finset.range c, if j < c - 1 then (1 : ℕ) else 0) =
      ∑ i ∈ Finset.range h, ∑ j ∈ Finset.range c, if j + 1 < c then (1 : ℕ) else 0 := by
    refine Finset.sum_congr rfl fun i _ => Finset.sum_congr rfl fun j _ => ?_
    exact if_congr (by omega) rfl rfl
  have ecomb : (∑ i ∈ Finset.range h, ∑ j ∈ Finset.range c, if i + 1 < h then (1 : ℕ) else 0) +
      (∑ i ∈ Finset.range h, ∑ j ∈ Finset.range c, if j + 1 < c then (1 : ℕ) else 0) =
      (h - 1) * c + h * (c - 1) := by
    rw [← sum2_add]
    exact edge_count h c
  rw [e1, e2, e3, e4, e5, ← ecomb]
  ring

/-- Claim C10: on a grid with at least one adjacent pair,
`compute_local_roughness` of the weight map returns exactly the value that
`distorsion_locale_moyenne` returns: counting every edge from both endpoints
doubles both the squared-distance total and the pair count, so the averages
coincide. -/
theorem claim_C10 (net : SOM) (h c : ℕ) (hg : net.gridsize = (h, c))
    (hh : 0 < h) (hc : 0 < c) (hedge : 1 < h ∨ 1 < c)
    (hlen : net.map.length = h) (hrows : ∀ row ∈ net.map, row.length = c) :
    distorsion_locale_moyenne net = .ok (compute_local_roughness net.weightsmap) := by
  have hpos := edge_count_pos h c hh hc hedge
  have hWlen : net.weightsmap.length = h := by
    simp [SOM.weightsmap, hlen]
  have hmem0 : net.map.getD 0 [] ∈ net.map :=
    getD_mem_of_lt net.map 0 [] (by rw [hlen]; exact hh)
  have hWrow : (net.weightsmap.getD 0 []).length = c := by
    rw [SOM.weightsmap, getD_map_lt _ net.map [] [] 0 (by rw [hlen]; exact hh),
      List.length_map]
    exact hrows _ hmem0
  have hrough : compute_local_roughness net.weightsmap =
      (∑ i ∈ Finset.range h, ∑ j ∈ Finset.range c,
        ((if i + 1 < h then
            d2 (wcell net.weightsmap i j) (wcell net.weightsmap (i + 1) j) else 0) +
         (if j + 1 < c then
            d2 (wcell net.weightsmap i j) (wcell net.weightsmap i (j + 1)) else 0))) /
      (((h - 1) * c + h * (c - 1) : ℕ) : ℝ) := by
    simp only [compute_local_roughness, hWlen, hWrow]
    rw [rough_total_eq net.weightsmap h c, rough_count_eq h c]
    rw [if_pos (Nat.mul_pos (by norm_num) hpos)]
    push_cast
    rw [mul_div_mul_left _ _ (two_ne_zero)]
  simp only [distorsion_locale_moyenne, hg]
  rw [edge_count h c, pyDivNat, if_neg hpos.ne', hrough]

theorem claim_C10_witness :
    somW.gridsize = (1, 2) ∧ (0 : ℕ) < 1 ∧ (0 : ℕ) < 2 ∧ ((1 : ℕ) < 1 ∨ (1 : ℕ) < 2) ∧
    somW.map.length = 1 ∧ (∀ row ∈ somW.map, row.length = 2) ∧
    distorsion_locale_moyenne somW = .ok (compute_local_roughness somW.weightsmap) :=
  ⟨rfl, one_pos, by norm_num, Or.inr (by norm_num), rfl, somW_rows,
    claim_C10 somW 1 2 rfl one_pos (by norm_num) (Or.inr (by norm_num)) rfl somW_rows⟩

lemma npNorm_nonneg (v : List ℝ) : 0 ≤ npNorm v := Real.sqrt_nonneg _

lemma npNorm_scale (c : ℝ) (v : List ℝ) :
    npNorm (v.map (fun t => c * t)) = |c| * npNorm v := by
  simp only [npNorm, List.map_map]
  have hmap : ((fun t => t ^ 2) ∘ fun t => c * t) = fun t => c ^ 2 * t ^ 2 := by
    funext t
    simp only [Function.comp]
    ring
  rw [hmap]
  have hsum : (v.map fun t => c ^ 2 * t ^ 2).sum = c ^ 2 * (v.map fun t => t ^ 2).sum := by
    induction v with
    | nil => simp
    | cons a t ih => simp [ih]; ring
  rw [hsum, Real.sqrt_mul (sq_nonneg c), Real.sqrt_sq_eq_abs]

lemma vsub_learn (eta : ℝ) : ∀ (w x : List ℝ),
    vsub (List.zipWith (fun wv xv => wv + eta * (xv - wv)) w x) x =
    (vsub w x).map (fun t => (1 - eta) * t) := by
  intro w
  induction w with
  | nil => intro x; cases x <;> rfl
  | cons a t ih =>
    intro x
    cases x with
    | nil => rfl
    | cons b s =>
      simp only [vsub, List.zipWith_cons_cons, List.map_cons] at ih ⊢
      have hh : a + eta * (b - a) - b = (1 - eta) * (a - b) := by ring
      rw [hh]
      exact congrArg _ (ih s)

lemma kern_self (sigma : ℝ) (i j : ℕ) : kern sigma i j i j = 1 := by
  simp [kern]

lemma getD2_map {α β : Type} (f : α → β) (dα : α) (dβ : β) (L : List (List α)) (i j : ℕ)
    (hi : i < L.length) (hj : j < (L.getD i []).length) :
    ((L.map fun row => row.map f).getD i []).getD j dβ = f ((L.getD i []).getD j dα) := by
  rw [getD_map_lt (fun row => row.map f) L [] [] i hi]
  rw [getD_map_lt f (L.getD i []) dα dβ j hj]

lemma dimsOK_computeApply (som : SOM) (x : List ℝ) (D : ℕ) (hD : dimsOK som D) :
    dimsOK (computeApply x som) D := by
  intro row hr n hn
  simp only [computeApply, List.mem_map] at hr
  obtain ⟨r0, hr0, rfl⟩ := hr
  simp only [List.mem_map] at hn
  obtain ⟨n0, hn0, rfl⟩ := hn
  exact hD r0 hr0 n0 hn0

lemma dimsOK_learnApply (som : SOM) (eta sigma : ℝ) (p : ℕ × ℕ) (x : List ℝ) (D : ℕ)
    (hD : dimsOK som D) (hx : x.length = D) :
    dimsOK (learnApply eta sigma p x som) D := by
  intro row hr n hn
  simp only [learnApply, List.mem_map] at hr
  obtain ⟨r0, hr0, rfl⟩ := hr
  simp only [List.mem_map] at hn
  obtain ⟨n0, hn0, rfl⟩ := hn
  simp [learnG, List.length_zipWith, hD r0 hr0 n0 hn0, hx]

lemma bmu_decrease (som : SOM) (x : List ℝ) (eta sigma : ℝ) (h c : ℕ)
    (hlen : som.map.length = h) (hrows : ∀ row ∈ som.map, row.length = c)
    (hpos : ∀ i j, i < h → j < c →
      (ncell som i j).posx = i ∧ (ncell som i j).posy = j)
    (heta0 : 0 < eta) (heta1 : eta ≤ 1)
    (p q : ℕ) (hp1 : p < h) (hp2 : q < c)
    (hnz : acell (computeApply x som) p q ≠ 0) :
    acell (computeApply x (learnApply eta sigma (p, q) x (computeApply x som))) p q <
      acell (computeApply x som) p q := by
  have hi : p < som.map.length := by rw [hlen]; exact hp1
  have hj : q < (som.map.getD p []).length := by
    rw [hrows _ (getD_mem_of_lt som.map _ [] hi)]
    exact hp2
  have ha1 : acell (computeApply x som) p q =
      npNorm (vsub (ncell som p q).weights x) := by
    show ((som.map.map fun row => row.map fun n =>
        npNorm (vsub n.weights x)).getD p []).getD q 0 =
      npNorm (vsub ((som.map.getD p []).getD q ⟨[], 0, 0, 0⟩).weights x)
    rw [getD_map_lt (fun row => row.map fun n => npNorm (vsub n.weights x))
      som.map [] [] p hi]
    rw [getD_map_lt (fun n => npNorm (vsub n.weights x)) (som.map.getD p [])
      ⟨[], 0, 0, 0⟩ 0 q hj]
  have hn1 : ncell (computeApply x som) p q = computeG x (ncell som p q) :=
    getD2_map (computeG x) ⟨[], 0, 0, 0⟩ ⟨[], 0, 0, 0⟩ som.map p q hi hj
  have hi1 : p < (computeApply x som).map.length := by
    simp only [computeApply, List.length_map]
    exact hi
  have hj1 : q < ((computeApply x som).map.getD p []).length := by
    have hrow1 : (computeApply x som).map.getD p [] =
        (som.map.getD p []).map (computeG x) :=
      getD_map_lt _ som.map [] [] _ hi
    rw [hrow1, List.length_map]
    exact hj
  have hn2 : ncell (learnApply eta sigma (p, q) x (computeApply x som)) p q =
      learnG eta sigma p q x (ncell (computeApply x som) p q) :=
    getD2_map (learnG eta sigma p q x) ⟨[], 0, 0, 0⟩ ⟨[], 0, 0, 0⟩
      (computeApply x som).map p q hi1 hj1
  have hi2 : p < (learnApply eta sigma (p, q) x (computeApply x som)).map.length := by
    simp only [learnApply, List.length_map]
    exact hi1
  have hj2 : q <
      ((learnApply eta sigma (p, q) x (computeApply x som)).map.getD p []).length := by
    have hrow2 : (learnApply eta sigma (p, q) x (computeApply x som)).map.getD p [] =
        ((computeApply x som).map.getD p []).map (learnG eta sigma p q x) :=
      getD_map_lt _ (computeApply x som).map [] [] _ hi1
    rw [hrow2, List.length_map]
    exact hj1
  have ha3 : acell (computeApply x
        (learnApply eta sigma (p, q) x (computeApply x som))) p q =
      npNorm (vsub (ncell (learnApply eta sigma (p, q) x
        (computeApply x som)) p q).weights x) := by
    show (((learnApply eta sigma (p, q) x (computeApply x som)).map.map
        fun row => row.map fun n => npNorm (vsub n.weights x)).getD p []).getD q 0 =
      npNorm (vsub (((learnApply eta sigma (p, q) x
        (computeApply x som)).map.getD p []).getD q ⟨[], 0, 0, 0⟩).weights x)
    rw [getD_map_lt (fun row => row.map fun n => npNorm (vsub n.weights x))
      (learnApply eta sigma (p, q) x (computeApply x som)).map [] [] p hi2]
    rw [getD_map_lt (fun n => npNorm (vsub n.weights x))
      ((learnApply eta sigma (p, q) x (computeApply x som)).map.getD p [])
      ⟨[], 0, 0, 0⟩ 0 q hj2]
  obtain ⟨hpx, hpy⟩ := hpos _ _ hp1 hp2
  have hw2 : (ncell (learnApply eta sigma (p, q) x
        (computeApply x som)) p q).weights =
      List.zipWith (fun wv xv => wv + eta * (xv - wv))
        (ncell som p q).weights x := by
    rw [hn2, hn1]
    simp only [learnG, computeG]
    simp only [hpx, hpy, kern_self, mul_one]
  rw [ha3, hw2, vsub_learn eta, npNorm_scale, ha1]
  rw [ha1] at hnz
  have hapos : 0 < npNorm (vsub (ncell som p q).weights x) :=
    lt_of_le_of_ne (npNorm_nonneg _) (Ne.symm hnz)
  rw [abs_of_nonneg (by linarith : (0 : ℝ) ≤ 1 - eta)]
  nlinarith [mul_pos heta0 hapos]

/-- Claim C5, amended: with `eta` in `(0, 1]` and `sigma > 0`, after an
activation pass and one learning step on the same input, re-activating the
unit at the BMU position strictly decreases its activation, provided its
pre-step activation was nonzero; when the winner's weights already equal
the input its activation stays 0 and cannot decrease strictly. -/
theorem claim_C5 (som : SOM) (x : List ℝ) (eta sigma : ℝ) (h c D : ℕ)
    (hg : som.gridsize = (h, c)) (hh : 0 < h) (hc : 0 < c)
    (hlen : som.map.length = h) (hrows : ∀ row ∈ som.map, row.length = c)
    (hpos : ∀ i j, i < h → j < c →
      (ncell som i j).posx = i ∧ (ncell som i j).posy = j)
    (hD : dimsOK som D) (hx : x.length = D)
    (heta0 : 0 < eta) (heta1 : eta ≤ 1) (hsig : 0 < sigma)
    (s1 s2 s3 : SOM)
    (h1 : som.compute x = .ok s1)
    (h2 : SOM.learn eta sigma x s1 = .ok s2)
    (h3 : s2.compute x = .ok s3)
    (hnz : acell s1 s1.findBMU.1 s1.findBMU.2 ≠ 0) :
    acell s3 s1.findBMU.1 s1.findBMU.2 < acell s1 s1.findBMU.1 s1.findBMU.2 := by
  rw [SOM.compute_ok som x D hD hx] at h1
  injection h1 with e1
  subst e1
  have dims1 : dimsOK (computeApply x som) D := dimsOK_computeApply som x D hD
  rw [SOM.learn_ok _ eta sigma x D dims1 hx hsig.ne'] at h2
  injection h2 with e2
  subst e2
  have dims2 : dimsOK (learnApply eta sigma (computeApply x som).findBMU x
      (computeApply x som)) D :=
    dimsOK_learnApply _ eta sigma _ x D dims1 hx
  rw [SOM.compute_ok _ x D dims2 hx] at h3
  injection h3 with e3
  subst e3
  have hs1alen : (computeApply x som).activitymap.length = h := by
    simp [computeApply, hlen]
  have hs1arows : ∀ row ∈ (computeApply x som).activitymap, row.length = c := by
    intro row hr
    simp only [computeApply, List.mem_map] at hr
    obtain ⟨r0, hr0, rfl⟩ := hr
    simp [hrows r0 hr0]
  have hfb : (computeApply x som).findBMU =
      (argminIdx (computeApply x som).activitymap.flatten / c,
       argminIdx (computeApply x som).activitymap.flatten % c) := by
    simp [SOM.findBMU, computeApply, hg]
  obtain ⟨hp1, hp2, _, _⟩ :=
    bmu_spec (computeApply x som).activitymap h c hh hc hs1alen hs1arows
  have hfb1 : (computeApply x som).findBMU.1 =
      argminIdx (computeApply x som).activitymap.flatten / c := by rw [hfb]
  have hfb2 : (computeApply x som).findBMU.2 =
      argminIdx (computeApply x som).activitymap.flatten % c := by rw [hfb]
  rw [hfb1, hfb2] at hnz ⊢
  rw [hfb]
  exact bmu_decrease som x eta sigma h c hlen hrows hpos heta0 heta1
    (argminIdx (computeApply x som).activitymap.flatten / c)
    (argminIdx (computeApply x som).activitymap.flatten % c) hp1 hp2 hnz

/-- Fixed example grid for the C5 counterexample: a 1×1 map whose single
weight vector already equals the input. -/
def somZ : SOM := ⟨1, (1, 1), [[⟨[0], 0, 0, 0⟩]], [[0]]⟩

lemma somZ_dims : dimsOK somZ 1 := by
  intro row hr n hn
  simp [somZ] at hr
  subst hr
  simp only [List.mem_cons, List.not_mem_nil, or_false] at hn
  rcases hn with rfl
  rfl

/-- Claim C5 counterexample: on a 1×1 grid whose weight vector equals the
input, with `eta = 1` in `(0, 1]` and `sigma = 1 > 0`, the winner's
activation is 0 both before and after the learning step: it does not
strictly decrease, so the claim as stated (without excluding a zero
pre-step activation) is false. -/
theorem claim_C5_cex :
    (0 : ℝ) < 1 ∧ (1 : ℝ) ≤ 1 ∧ (0 : ℝ) < 1 ∧
    somZ.compute [(0 : ℝ)] = .ok (computeApply [(0 : ℝ)] somZ) ∧
    SOM.learn 1 1 [(0 : ℝ)] (computeApply [(0 : ℝ)] somZ) =
      .ok (learnApply 1 1 (computeApply [(0 : ℝ)] somZ).findBMU [(0 : ℝ)]
        (computeApply [(0 : ℝ)] somZ)) ∧
    (learnApply 1 1 (computeApply [(0 : ℝ)] somZ).findBMU [(0 : ℝ)]
        (computeApply [(0 : ℝ)] somZ)).compute [(0 : ℝ)] =
      .ok (computeApply [(0 : ℝ)]
        (learnApply 1 1 (computeApply [(0 : ℝ)] somZ).findBMU [(0 : ℝ)]
          (computeApply [(0 : ℝ)] somZ))) ∧
    ¬ (acell (computeApply [(0 : ℝ)]
        (learnApply 1 1 (computeApply [(0 : ℝ)] somZ).findBMU [(0 : ℝ)]
          (computeApply [(0 : ℝ)] somZ)))
        (computeApply [(0 : ℝ)] somZ).findBMU.1
        (computeApply [(0 : ℝ)] somZ).findBMU.2 <
      acell (computeApply [(0 : ℝ)] somZ)
        (computeApply [(0 : ℝ)] somZ).findBMU.1
        (computeApply [(0 : ℝ)] somZ).findBMU.2) := by
  have hc1 : somZ.compute [(0 : ℝ)] = .ok (computeApply [(0 : ℝ)] somZ) :=
    SOM.compute_ok somZ [(0 : ℝ)] 1 somZ_dims rfl
  have hdims1 : dimsOK (computeApply [(0 : ℝ)] somZ) 1 :=
    dimsOK_computeApply somZ [(0 : ℝ)] 1 somZ_dims
  have hl : SOM.learn 1 1 [(0 : ℝ)] (computeApply [(0 : ℝ)] somZ) =
      .ok (learnApply 1 1 (computeApply [(0 : ℝ)] somZ).findBMU [(0 : ℝ)]
        (computeApply [(0 : ℝ)] somZ)) :=
    SOM.learn_ok (computeApply [(0 : ℝ)] somZ) 1 1 [(0 : ℝ)] 1 hdims1 rfl one_ne_zero
  have hc2 : (learnApply 1 1 (computeApply [(0 : ℝ)] somZ).findBMU [(0 : ℝ)]
        (computeApply [(0 : ℝ)] somZ)).compute [(0 : ℝ)] =
      .ok (computeApply [(0 : ℝ)]
        (learnApply 1 1 (computeApply [(0 : ℝ)] somZ).findBMU [(0 : ℝ)]
          (computeApply [(0 : ℝ)] somZ))) :=
    SOM.compute_ok _ [(0 : ℝ)] 1
      (dimsOK_learnApply _ 1 1 _ [(0 : ℝ)] 1 hdims1 rfl) rfl
  refine ⟨one_pos, le_refl 1, one_pos, hc1, hl, hc2, ?_⟩
  have eB : acell (computeApply [(0 : ℝ)] somZ) 0 0 = 0 := by
    show npNorm (vsub [(0 : ℝ)] [(0 : ℝ)]) = 0
    simp [npNorm, vsub]
  have eA : acell (computeApply [(0 : ℝ)]
      (learnApply 1 1 (0, 0) [(0 : ℝ)] (computeApply [(0 : ℝ)] somZ))) 0 0 = 0 := by
    show npNorm (vsub (List.zipWith
      (fun wv xv => wv + 1 * kern 1 0 0 0 0 * (xv - wv)) [(0 : ℝ)] [(0 : ℝ)])
      [(0 : ℝ)]) = 0
    simp [npNorm, vsub, kern]
  have hfbZ : (computeApply [(0 : ℝ)] somZ).findBMU = (0, 0) := rfl
  rw [hfbZ]
  show ¬ (acell (computeApply [(0 : ℝ)]
      (learnApply 1 1 (0, 0) [(0 : ℝ)] (computeApply [(0 : ℝ)] somZ))) 0 0 <
    acell (computeApply [(0 : ℝ)] somZ) 0 0)
  rw [eA, eB]
  exact lt_irrefl 0

/-- Fixed example grid for the C5 witness: a 1×1 map with weight `[1]`,
activated with input `[0]`. -/
def somY : SOM := ⟨1, (1, 1), [[⟨[1], 0, 0, 0⟩]], [[0]]⟩

lemma somY_dims : dimsOK somY 1 := by
  intro row hr n hn
  simp [somY] at hr
  subst hr
  simp only [List.mem_cons, List.not_mem_nil, or_false] at hn
  rcases hn with rfl
  rfl

lemma somY_rows : ∀ row ∈ somY.map, row.length = 1 := by
  intro row hr
  simp [somY] at hr
  subst hr
  rfl

lemma somY_pos : ∀ i j, i < 1 → j < 1 →
    (ncell somY i j).posx = i ∧ (ncell somY i j).posy = j := by
  intro i j hi hj
  have hi0 : i = 0 := by omega
  have hj0 : j = 0 := by omega
  subst hi0
  subst hj0
  exact ⟨rfl, rfl⟩

theorem claim_C5_witness :
    acell (computeApply [(0 : ℝ)] somY) (computeApply [(0 : ℝ)] somY).findBMU.1
        (computeApply [(0 : ℝ)] somY).findBMU.2 ≠ 0 ∧
    acell (computeApply [(0 : ℝ)]
        (learnApply 1 1 (computeApply [(0 : ℝ)] somY).findBMU [(0 : ℝ)]
          (computeApply [(0 : ℝ)] somY)))
      (computeApply [(0 : ℝ)] somY).findBMU.1
      (computeApply [(0 : ℝ)] somY).findBMU.2 <
    acell (computeApply [(0 : ℝ)] somY) (computeApply [(0 : ℝ)] somY).findBMU.1
      (computeApply [(0 : ℝ)] somY).findBMU.2 := by
  have hdims1 : dimsOK (computeApply [(0 : ℝ)] somY) 1 :=
    dimsOK_computeApply somY [(0 : ℝ)] 1 somY_dims
  have hnz : acell (computeApply [(0 : ℝ)] somY)
      (computeApply [(0 : ℝ)] somY).findBMU.1
      (computeApply [(0 : ℝ)] somY).findBMU.2 ≠ 0 := by
    have hfbY : (computeApply [(0 : ℝ)] somY).findBMU = (0, 0) := rfl
    rw [hfbY]
    show npNorm (vsub [(1 : ℝ)] [(0 : ℝ)]) ≠ 0
    simp [npNorm, vsub]
  refine ⟨hnz, ?_⟩
  exact claim_C5 somY [(0 : ℝ)] 1 1 1 1 1 rfl one_pos one_pos rfl somY_rows somY_pos
    somY_dims rfl one_pos (le_refl 1) one_pos
    (computeApply [(0 : ℝ)] somY)
    (learnApply 1 1 (computeApply [(0 : ℝ)] somY).findBMU [(0 : ℝ)]
      (computeApply [(0 : ℝ)] somY))
    (computeApply [(0 : ℝ)]
      (learnApply 1 1 (computeApply [(0 : ℝ)] somY).findBMU [(0 : ℝ)]
        (computeApply [(0 : ℝ)] somY)))
    (SOM.compute_ok somY [(0 : ℝ)] 1 somY_dims rfl)
    (SOM.learn_ok (computeApply [(0 : ℝ)] somY) 1 1 [(0 : ℝ)] 1 hdims1 rfl one_ne_zero)
    (SOM.compute_ok _ [(0 : ℝ)] 1
      (dimsOK_learnApply _ 1 1 _ [(0 : ℝ)] 1 hdims1 rfl) rfl)
    hnz

/-- Body of the `__main__` training loop: draw the current sample, activate
the whole grid on it, then apply one learning step. -/
noncomputable def trainStep (eta sigma : ℝ) (x : List ℝ) (s : SOM) : Except PyErr SOM :=
  (s.compute x).bind fun s1 => SOM.learn eta sigma x s1

/-- Model of the `__main__` training loop `for i in range(N + 1)`: the
random draw at step `i` is injected as the index function `pick` into the
sample table `samples`. -/
noncomputable def train (eta sigma : ℝ) (samples : ℕ → List ℝ) (pick : ℕ → ℕ)
    (iterations : ℕ) (som : SOM) : Except PyErr SOM :=
  (List.range (iterations + 1)).foldl
    (fun acc i => acc.bind (trainStep eta sigma (samples (pick i)))) (.ok som)

/-- Modelled from the spec's words for the refinement claim C9: apply the
draw/activate/learn loop body exactly `n` times, consuming loop indices
from `i0` upwards. -/
noncomputable def trainPasses (eta sigma : ℝ) (samples : ℕ → List ℝ) (pick : ℕ → ℕ) :
    ℕ → ℕ → Except PyErr SOM → Except PyErr SOM
  | 0, _, acc => acc
  | n + 1, i0, acc =>
    trainPasses eta sigma samples pick n (i0 + 1)
      (acc.bind (trainStep eta sigma (samples (pick i0))))

lemma range'_foldl_trainPasses (eta sigma : ℝ) (samples : ℕ → List ℝ) (pick : ℕ → ℕ) :
    ∀ (n i0 : ℕ) (acc : Except PyErr SOM),
      (List.range' i0 n).foldl
        (fun acc i => acc.bind (trainStep eta sigma (samples (pick i)))) acc =
      trainPasses eta sigma samples pick n i0 acc := by
  intro n
  induction n with
  | zero => intro i0 acc; rfl
  | succ m ih =>
    intro i0 acc
    rw [List.range'_succ]
    simp only [List.foldl_cons]
    rw [ih]
    rfl

/-- Claim C9: the training loop executes its draw/activate/learn body
exactly `iterations + 1` times; in particular with `iterations = 0` it
performs exactly one activate-plus-learn pass, which (on a well-formed
grid) succeeds and applies the Kohonen weight assignment to every unit of
the grid. -/
theorem claim_C9 :
    (∀ (eta sigma : ℝ) (samples : ℕ → List ℝ) (pick : ℕ → ℕ)
        (iterations : ℕ) (som : SOM),
      train eta sigma samples pick iterations som =
        trainPasses eta sigma samples pick (iterations + 1) 0 (.ok som)) ∧
    (∀ (eta sigma : ℝ) (samples : ℕ → List ℝ) (pick : ℕ → ℕ) (som : SOM) (h c D : ℕ),
      som.map.length = h → (∀ row ∈ som.map, row.length = c) →
      dimsOK som D → (samples (pick 0)).length = D → sigma ≠ 0 →
      train eta sigma samples pick 0 som =
        .ok (learnApply eta sigma (computeApply (samples (pick 0)) som).findBMU
          (samples (pick 0)) (computeApply (samples (pick 0)) som)) ∧
      ∀ i j, i < h → j < c →
        ncell (learnApply eta sigma (computeApply (samples (pick 0)) som).findBMU
            (samples (pick 0)) (computeApply (samples (pick 0)) som)) i j =
          learnG eta sigma (computeApply (samples (pick 0)) som).findBMU.1
            (computeApply (samples (pick 0)) som).findBMU.2 (samples (pick 0))
            (computeG (samples (pick 0)) (ncell som i j))) := by
  constructor
  · intro eta sigma samples pick iterations som
    rw [train, List.range_eq_range']
    exact range'_foldl_trainPasses eta sigma samples pick (iterations + 1) 0 (.ok som)
  · intro eta sigma samples pick som h c D hlen hrows hD hx hsig
    have hstep : train eta sigma samples pick 0 som =
        trainStep eta sigma (samples (pick 0)) som := rfl
    have dims1 : dimsOK (computeApply (samples (pick 0)) som) D :=
      dimsOK_computeApply som (samples (pick 0)) D hD
    constructor
    · rw [hstep, trainStep, SOM.compute_ok som (samples (pick 0)) D hD hx, exbind_ok]
      exact SOM.learn_ok (computeApply (samples (pick 0)) som) eta sigma
        (samples (pick 0)) D dims1 hx hsig
    · intro i j hi hj
      have hi0 : i < som.map.length := by rw [hlen]; exact hi
      have hj0 : j < (som.map.getD i []).length := by
        rw [hrows _ (getD_mem_of_lt som.map _ [] hi0)]
        exact hj
      have hi1 : i < (computeApply (samples (pick 0)) som).map.length := by
        simp only [computeApply, List.length_map]
        exact hi0
      have hj1 : j < ((computeApply (samples (pick 0)) som).map.getD i []).length := by
        have hrow1 : (computeApply (samples (pick 0)) som).map.getD i [] =
            (som.map.getD i []).map (computeG (samples (pick 0))) :=
          getD_map_lt _ som.map [] [] _ hi0
        rw [hrow1, List.length_map]
        exact hj0
      have hn2 : ncell (learnApply eta sigma
            (computeApply (samples (pick 0)) som).findBMU (samples (pick 0))
            (computeApply (samples (pick 0)) som)) i j =
          learnG eta sigma (computeApply (samples (pick 0)) som).findBMU.1
            (computeApply (samples (pick 0)) som).findBMU.2 (samples (pick 0))
            (ncell (computeApply (samples (pick 0)) som) i j) :=
        getD2_map (learnG eta sigma _ _ (samples (pick 0))) ⟨[], 0, 0, 0⟩ ⟨[], 0, 0, 0⟩
          (computeApply (samples (pick 0)) som).map i j hi1 hj1
      have hn1 : ncell (computeApply (samples (pick 0)) som) i j =
          computeG (samples (pick 0)) (ncell som i j) :=
        getD2_map (computeG (samples (pick 0))) ⟨[], 0, 0, 0⟩ ⟨[], 0, 0, 0⟩
          som.map i j hi0 hj0
      rw [hn2, hn1]

theorem claim_C9_witness :
    (1 : ℝ) ≠ 0 ∧
    (train 1 1 (fun _ => [(0 : ℝ)]) (fun _ => 0) 0 somY =
        .ok (learnApply 1 1 (computeApply [(0 : ℝ)] somY).findBMU [(0 : ℝ)]
          (computeApply [(0 : ℝ)] somY)) ∧
      ∀ i j, i < 1 → j < 1 →
        ncell (learnApply 1 1 (computeApply [(0 : ℝ)] somY).findBMU [(0 : ℝ)]
            (computeApply [(0 : ℝ)] somY)) i j =
          learnG 1 1 (computeApply [(0 : ℝ)] somY).findBMU.1
            (computeApply [(0 : ℝ)] somY).findBMU.2 [(0 : ℝ)]
            (computeG [(0 : ℝ)] (ncell somY i j))) :=
  ⟨one_ne_zero, claim_C9.2 1 1 (fun _ => [(0 : ℝ)]) (fun _ => 0) somY 1 1 1 rfl
    somY_rows somY_dims rfl one_ne_zero⟩
